import Mathlib

/-
Shallow embedding of the raycaster in src/src/lib.rs.

Modelling conventions:
* f32 arithmetic is embedded as exact rational arithmetic over ℚ; decimal
  literals of the source are taken at their exact rational value, and the
  rounding performed by every individual f32 operation is abstracted away.
* The transcendental libm functions cosf, sinf, tanf, sqrtf are explicit
  function parameters of the embedded operations: every theorem below that
  quantifies over them holds for arbitrary interpretations of those
  functions, in particular for the true f32 ones.
* floorf and ceilf are exact on f32, so they are embedded by the exact
  Int.floor / Int.ceil on ℚ.
* The expression fabsf(floorf(t) % 2.0) != 0.0 of the source tests whether
  the integer floorf(t) is odd; it is embedded as Int.emod by 2 being
  nonzero, which agrees with the f32 remainder up to the sign that fabsf
  discards.
* Rust float-to-integer "as" casts saturate: "as usize" truncates toward
  zero and clamps negative values to 0, which on ℚ is Int.toNat of the
  floor; "as i32" truncates toward zero and clamps to the i32 range, with
  an infinite quotient (division by zero) landing at the i32 bound.
* The u16 shift "line & (0b1 << x as usize)" uses the wrapping shift
  semantics of release builds: the shift amount is reduced mod 16.
-/

/- Batteries marks the Rat field operations irreducible for performance
reasons only; re-marking them semireducible lets concrete rational
computations reduce, so that witnesses evaluate by kernel reduction. -/
set_option allowUnsafeReducibility true
attribute [semireducible] Rat.add Rat.mul Rat.sub Rat.inv Rat.ofScientific

/-- Exact value of the f32 constant core::f32::consts::PI (bits 0x40490FDB). -/
def PI : ℚ := 13176795 / 4194304

/-- Exact value of f32 core::f32::consts::FRAC_PI_2; it is exactly PI / 2. -/
def FRAC_PI_2 : ℚ := PI / 2

def FOV : ℚ := PI / (27 / 10)

def HALF_FOV : ℚ := FOV * (1 / 2)

def ANGLE_STEP : ℚ := FOV / 160

def WALL_HEIGHT : ℚ := 100

def STEP_SIZE : ℚ := 9 / 200

/-- The wall map: 8 rows of 16 column-bits, bit i set means wall at column i. -/
def MAP : List ℕ := [
  0b1111111111111111,
  0b1000001010000101,
  0b1011100000110101,
  0b1000111010010001,
  0b1010001011110111,
  0b1011101001100001,
  0b1000100000001101,
  0b1111111111111111]

/-- Rust "as usize" on a nonnegative-or-clamped float: truncate toward zero,
negative values saturate to 0.  On ℚ this is Int.toNat of the floor. -/
def toUsize (q : ℚ) : ℕ := (⌊q⌋).toNat

/-- match MAP.get(row) with bit test of (0b1 << column); the u16 shift
wraps its amount mod 16, out-of-range rows are walls. -/
def wall_at (cx ry : ℕ) : Bool :=
  match MAP[ry]? with
  | some line => decide (line &&& (1 <<< (cx % 16)) ≠ 0)
  | none => true

/-- point_in_wall(x, y): cast both coordinates with "as usize" and look the
cell up in MAP. -/
def point_in_wall (x y : ℚ) : Bool := wall_at (toUsize x) (toUsize y)

def distance (sqrtf : ℚ → ℚ) (a b : ℚ) : ℚ := sqrtf (a * a + b * b)

structure State where
  player_x : ℚ
  player_y : ℚ
  player_angle : ℚ
deriving DecidableEq

/-- The x coordinate after the up/down translation steps of State::update. -/
def translated_x (cosf : ℚ → ℚ) (s : State) (up down : Bool) : ℚ :=
  let x1 := if up then s.player_x + cosf s.player_angle * STEP_SIZE else s.player_x
  if down then x1 - cosf s.player_angle * STEP_SIZE else x1

/-- The y coordinate after the up/down translation steps of State::update. -/
def translated_y (sinf : ℚ → ℚ) (s : State) (up down : Bool) : ℚ :=
  let y1 := if up then s.player_y + -sinf s.player_angle * STEP_SIZE else s.player_y
  if down then y1 - -sinf s.player_angle * STEP_SIZE else y1

/-- The angle after the right/left rotation steps of State::update. -/
def rotated_angle (s : State) (left right : Bool) : ℚ :=
  let a1 := if right then s.player_angle - STEP_SIZE else s.player_angle
  if left then a1 + STEP_SIZE else a1

/-- State::update: translate, rotate, then roll the position (not the angle)
back to the stored previous_position when the new position is in a wall. -/
def update (cosf sinf : ℚ → ℚ) (s : State) (up down left right : Bool) : State :=
  let nx := translated_x cosf s up down
  let ny := translated_y sinf s up down
  let na := rotated_angle s left right
  if point_in_wall nx ny then
    { player_x := s.player_x, player_y := s.player_y, player_angle := na }
  else
    { player_x := nx, player_y := ny, player_angle := na }

/-- The initializer of the static STATE. -/
def STATE : State := { player_x := 3 / 2, player_y := 3 / 2, player_angle := 0 }

/-- The direction test of horizontal_intersection: the source tests
fabsf(floorf(angle / PI) % 2.0) != 0.0, i.e. whether floorf(angle / PI)
is odd. -/
def hUp (angle : ℚ) : Bool := decide (⌊angle / PI⌋ % 2 ≠ 0)

/-- first_y of horizontal_intersection. -/
def hFirstY (s : State) (angle : ℚ) : ℚ :=
  if hUp angle then (⌈s.player_y⌉ : ℚ) - s.player_y else (⌊s.player_y⌋ : ℚ) - s.player_y

/-- first_x of horizontal_intersection. -/
def hFirstX (tanf : ℚ → ℚ) (s : State) (angle : ℚ) : ℚ := -hFirstY s angle / tanf angle

/-- dy of horizontal_intersection. -/
def hDY (angle : ℚ) : ℚ := if hUp angle then 1 else -1

/-- dx of horizontal_intersection. -/
def hDX (tanf : ℚ → ℚ) (angle : ℚ) : ℚ := -hDY angle / tanf angle

/-- The world point probed by one iteration of the horizontal sweep, given
the accumulated offsets st: current_x, and current_y adjusted by -1 when
sweeping downward. -/
def hProbe (px py : ℚ) (up : Bool) (st : ℚ × ℚ) : ℚ × ℚ :=
  (st.1 + px, if up then st.2 + py else st.2 + py - 1)

/-- The bounded for-loop of horizontal_intersection: at each of up to fuel
iterations, probe the current point, stop at the first wall hit, otherwise
accumulate (dx, dy). -/
def hLoop (px py : ℚ) (up : Bool) (dx dy : ℚ) : ℕ → ℚ × ℚ → ℚ × ℚ
  | 0, st => st
  | fuel + 1, st =>
    if point_in_wall (hProbe px py up st).1 (hProbe px py up st).2 then st
    else hLoop px py up dx dy fuel (st.1 + dx, st.2 + dy)

/-- State::horizontal_intersection. -/
def horizontal_intersection (tanf sqrtf : ℚ → ℚ) (s : State) (angle : ℚ) : ℚ :=
  let st := hLoop s.player_x s.player_y (hUp angle) (hDX tanf angle) (hDY angle) 256
    (hFirstX tanf s angle, hFirstY s angle)
  distance sqrtf st.1 st.2

/-- The direction test of vertical_intersection: whether
floorf((angle - FRAC_PI_2) / PI) is odd. -/
def vRight (angle : ℚ) : Bool := decide (⌊(angle - FRAC_PI_2) / PI⌋ % 2 ≠ 0)

/-- first_x of vertical_intersection. -/
def vFirstX (s : State) (angle : ℚ) : ℚ :=
  if vRight angle then (⌈s.player_x⌉ : ℚ) - s.player_x else (⌊s.player_x⌋ : ℚ) - s.player_x

/-- first_y of vertical_intersection. -/
def vFirstY (tanf : ℚ → ℚ) (s : State) (angle : ℚ) : ℚ := -tanf angle * vFirstX s angle

/-- dx of vertical_intersection. -/
def vDX (angle : ℚ) : ℚ := if vRight angle then 1 else -1

/-- dy of vertical_intersection. -/
def vDY (tanf : ℚ → ℚ) (angle : ℚ) : ℚ := vDX angle * -tanf angle

/-- The world point probed by one iteration of the vertical sweep:
current_x adjusted by -1 when sweeping leftward, and current_y. -/
def vProbe (px py : ℚ) (right : Bool) (st : ℚ × ℚ) : ℚ × ℚ :=
  (if right then st.1 + px else st.1 + px - 1, st.2 + py)

/-- The bounded for-loop of vertical_intersection. -/
def vLoop (px py : ℚ) (right : Bool) (dx dy : ℚ) : ℕ → ℚ × ℚ → ℚ × ℚ
  | 0, st => st
  | fuel + 1, st =>
    if point_in_wall (vProbe px py right st).1 (vProbe px py right st).2 then st
    else vLoop px py right dx dy fuel (st.1 + dx, st.2 + dy)

/-- State::vertical_intersection. -/
def vertical_intersection (tanf sqrtf : ℚ → ℚ) (s : State) (angle : ℚ) : ℚ :=
  let st := vLoop s.player_x s.player_y (vRight angle) (vDX angle) (vDY tanf angle) 256
    (vFirstX s angle, vFirstY tanf s angle)
  distance sqrtf st.1 st.2

/-- Truncation toward zero of a rational, as f32-to-integer casts do. -/
def ratTrunc (q : ℚ) : ℤ := if q < 0 then ⌈q⌉ else ⌊q⌋

/-- Models the Rust expression (num / den) as i32 on f32 values: an "as"
cast to i32 truncates toward zero and saturates at the i32 bounds for
out-of-range or infinite inputs, and maps NaN to 0.  In f32, num / 0.0
with num positive is +infinity, so it saturates to i32::MAX (2^31 - 1);
0.0 / 0.0 is NaN and casts to 0.  ℚ has no infinities or NaN, so the
zero-denominator cases are written out explicitly. -/
def f32_div_as_i32 (num den : ℚ) : ℤ :=
  if den = 0 then
    (if num = 0 then 0 else if num < 0 then -(2 ^ 31) else 2 ^ 31 - 1)
  else
    max (-(2 ^ 31)) (min (2 ^ 31 - 1) (ratTrunc (num / den)))

/-- The ray angle of view column idx: starting_angle - idx * ANGLE_STEP
with starting_angle = player_angle + HALF_FOV. -/
def colAngle (s : State) (idx : ℕ) : ℚ := s.player_angle + HALF_FOV - (idx : ℚ) * ANGLE_STEP

/-- One entry of State::get_view: both sweeps, the strict h_dist < v_dist
comparison selecting (min_dist, shadow), and the height
(WALL_HEIGHT / (min_dist * cosf(angle - player_angle))) as i32. -/
def view_column (cosf tanf sqrtf : ℚ → ℚ) (s : State) (idx : ℕ) : ℤ × Bool :=
  let angle := colAngle s idx
  let h_dist := horizontal_intersection tanf sqrtf s angle
  let v_dist := vertical_intersection tanf sqrtf s angle
  let mins := if h_dist < v_dist then (h_dist, false) else (v_dist, true)
  (f32_div_as_i32 WALL_HEIGHT (mins.1 * cosf (angle - s.player_angle)), mins.2)

/-- State::get_view: the 160 view columns in order. -/
def get_view (cosf tanf sqrtf : ℚ → ℚ) (s : State) : List (ℤ × Bool) :=
  (List.range 160).map (view_column cosf tanf sqrtf s)

/-- The height formula exactly as the specification words it: the
fish-eye-corrected distance is the minimum of the two sweep distances
DIVIDED by cosf(angle - player_angle), and the height is WALL_HEIGHT
divided by that corrected distance, truncated to an integer. -/
def spec_view_height (cosf tanf sqrtf : ℚ → ℚ) (s : State) (idx : ℕ) : ℤ :=
  let angle := colAngle s idx
  let h_dist := horizontal_intersection tanf sqrtf s angle
  let v_dist := vertical_intersection tanf sqrtf s angle
  f32_div_as_i32 WALL_HEIGHT (min h_dist v_dist / cosf (angle - s.player_angle))

/-- Concrete interpretations of the libm parameters, used to evaluate the
embedding at specific inputs. -/
def cHalf : ℚ → ℚ := fun _ => 1 / 2

def cOne : ℚ → ℚ := fun _ => 1

def sZero : ℚ → ℚ := fun _ => 0

def tOne : ℚ → ℚ := fun _ => 1

def sqId : ℚ → ℚ := fun q => q


/-- Every 16-bit-wide row with all bits set answers true for every wrapped
column index; row 0b1111111111111111 is 65535. -/
lemma all_ones_bit (k : ℕ) (hk : k < 16) : 65535 &&& (1 <<< k) ≠ 0 := by
  revert hk
  revert k
  decide

/-- Every row of MAP has bit 0 set. -/
lemma map_bit0 (n : ℕ) (hn : n < 8) : wall_at 0 n = true := by
  have h : n = 0 ∨ n = 1 ∨ n = 2 ∨ n = 3 ∨ n = 4 ∨ n = 5 ∨ n = 6 ∨ n = 7 := by omega
  rcases h with h | h | h | h | h | h | h | h <;> rw [h] <;> decide

/-- A negative coordinate saturates to 0 under "as usize". -/
lemma toUsize_neg {q : ℚ} (hq : q < 0) : toUsize q = 0 := by
  unfold toUsize
  have h : ⌊q⌋ < 0 := Int.floor_lt.mpr (by exact_mod_cast hq)
  omega

/-- C5: for every x and every y outside the interval [0, 8),
point_in_wall(x, y) returns true regardless of x: a y at or beyond row 8
misses MAP and is a wall by policy, and a negative y saturates to row 0,
which is entirely walls. -/
theorem boundary_enclosure (x y : ℚ) (h : y < 0 ∨ 8 ≤ y) :
    point_in_wall x y = true := by
  unfold point_in_wall
  rcases h with hy | hy
  · rw [toUsize_neg hy]
    show wall_at (toUsize x) 0 = true
    have hk : toUsize x % 16 < 16 := Nat.mod_lt _ (by norm_num)
    have hbit := all_ones_bit (toUsize x % 16) hk
    show decide (65535 &&& (1 <<< (toUsize x % 16)) ≠ 0) = true
    simpa using hbit
  · have h8 : (8 : ℤ) ≤ ⌊y⌋ := Int.le_floor.mpr (by exact_mod_cast hy)
    have hlen : MAP.length ≤ toUsize y := by
      have : MAP.length = 8 := rfl
      unfold toUsize
      omega
    unfold wall_at
    rw [List.getElem?_eq_none hlen]

/-- C5 witness: the boundary theorem applied at x = 20, y = 9. -/
theorem boundary_enclosure_witness :
    ((9 : ℚ) < 0 ∨ (8 : ℚ) ≤ 9) ∧ point_in_wall 20 9 = true :=
  ⟨Or.inr (by decide), boundary_enclosure 20 9 (Or.inr (by decide))⟩

/-- C9: for y inside [0, 8) and x negative, the float-to-usize cast of x
saturates to 0, so the query reads bit 0 of the row, and every row of MAP
has bit 0 set; hence point_in_wall(x, y) is true by aliasing to column 0. -/
theorem negative_x_aliases_column_zero (x y : ℚ) (hx : x < 0) (h0 : 0 ≤ y) (h8 : y < 8) :
    toUsize x = 0 ∧ point_in_wall x y = true := by
  have hx0 : toUsize x = 0 := toUsize_neg hx
  refine ⟨hx0, ?_⟩
  unfold point_in_wall
  rw [hx0]
  apply map_bit0
  have hyl : ⌊y⌋ < 8 := Int.floor_lt.mpr (by exact_mod_cast h8)
  have hyg : (0 : ℤ) ≤ ⌊y⌋ := Int.floor_nonneg.mpr h0
  unfold toUsize
  omega

/-- C9 witness: the aliasing theorem applied at x = -3, y = 2. -/
theorem negative_x_aliases_column_zero_witness :
    ((-3 : ℚ) < 0 ∧ (0 : ℚ) ≤ 2 ∧ (2 : ℚ) < 8) ∧
      (toUsize (-3) = 0 ∧ point_in_wall (-3) 2 = true) :=
  ⟨⟨by decide, by decide, by decide⟩,
    negative_x_aliases_column_zero (-3) 2 (by decide) (by decide) (by decide)⟩

/-- A single update with all four flags false changes nothing: the
translation leaves (x, y) alone, the rotation leaves the angle alone, and
both branches of the rollback test return the incoming pose. -/
lemma update_noop (cosf sinf : ℚ → ℚ) (s : State) :
    update cosf sinf s false false false false = s := by
  obtain ⟨x, y, a⟩ := s
  simp [update, translated_x, translated_y, rotated_angle]

/-- C8: calling update(false, false, false, false) any number of times
leaves all three fields of the player state unchanged. -/
theorem noop_update_iterated (cosf sinf : ℚ → ℚ) (s : State) (n : ℕ) :
    (fun t => update cosf sinf t false false false false)^[n] s = s := by
  induction n with
  | zero => rfl
  | succ k ih =>
    rw [Function.iterate_succ_apply', ih]
    exact update_noop cosf sinf s

/-- C4: whenever the position reached by the translation deltas is inside a
wall, update restores (x, y) to their exact pre-call values and the angle
still carries any rotation applied in the same call; the rollback branch
never touches the angle. -/
theorem collision_rollback (cosf sinf : ℚ → ℚ) (s : State) (u d l r : Bool)
    (h : point_in_wall (translated_x cosf s u d) (translated_y sinf s u d) = true) :
    update cosf sinf s u d l r =
      { player_x := s.player_x, player_y := s.player_y,
        player_angle := rotated_angle s l r } := by
  simp [update, h]

/-- A pose used to exercise the rollback: cell (2, 1) of MAP is a wall. -/
def sNearWall : State := { player_x := 5 / 2, player_y := 3 / 2, player_angle := 0 }

/-- C4 witness: moving up from (5/2, 3/2) with cosf = 1, sinf = 0 lands in
the wall cell (2, 1); update keeps the position and applies the left
rotation. -/
theorem collision_rollback_witness :
    point_in_wall (translated_x cOne sNearWall true false)
        (translated_y sZero sNearWall true false) = true ∧
      update cOne sZero sNearWall true false true false =
        { player_x := 5 / 2, player_y := 3 / 2,
          player_angle := rotated_angle sNearWall true false } :=
  ⟨by decide, collision_rollback cOne sZero sNearWall true false true false (by decide)⟩

/-- One update keeps the player out of walls: either the translated
position passes the point_in_wall test, or the pre-call position (assumed
free) is restored. -/
lemma update_keeps_free (cosf sinf : ℚ → ℚ) (s : State) (u d l r : Bool)
    (h : point_in_wall s.player_x s.player_y = false) :
    point_in_wall (update cosf sinf s u d l r).player_x
      (update cosf sinf s u d l r).player_y = false := by
  by_cases hw : point_in_wall (translated_x cosf s u d) (translated_y sinf s u d) = true
  · simp [update, hw, h]
  · simp only [Bool.not_eq_true] at hw
    simp [update, hw]

/-- The per-frame input flags of one State::update call: (up, down, left,
right). -/
def run_updates (cosf sinf : ℚ → ℚ) (inputs : List (Bool × Bool × Bool × Bool)) : State :=
  inputs.foldl (fun s i => update cosf sinf s i.1 i.2.1 i.2.2.1 i.2.2.2) STATE

/-- Folding update over any input sequence from a free pose stays free. -/
lemma foldl_updates_free (cosf sinf : ℚ → ℚ) :
    ∀ (inputs : List (Bool × Bool × Bool × Bool)) (s : State),
      point_in_wall s.player_x s.player_y = false →
      point_in_wall
        ((inputs.foldl (fun t i => update cosf sinf t i.1 i.2.1 i.2.2.1 i.2.2.2) s)).player_x
        ((inputs.foldl (fun t i => update cosf sinf t i.1 i.2.1 i.2.2.1 i.2.2.2) s)).player_y
        = false := by
  intro inputs
  induction inputs with
  | nil => intro s h; exact h
  | cons i t ih =>
    intro s h
    exact ih _ (update_keeps_free cosf sinf s i.1 i.2.1 i.2.2.1 i.2.2.2 h)

/-- C2: update preserves the not-point_in_wall invariant for every state
and every flag combination, and consequently the player never rests inside
a wall along any input sequence from the initial pose (1.5, 1.5, 0). -/
theorem player_never_in_wall :
    (∀ (cosf sinf : ℚ → ℚ) (s : State) (u d l r : Bool),
        point_in_wall s.player_x s.player_y = false →
        point_in_wall (update cosf sinf s u d l r).player_x
          (update cosf sinf s u d l r).player_y = false) ∧
      (∀ (cosf sinf : ℚ → ℚ) (inputs : List (Bool × Bool × Bool × Bool)),
        point_in_wall (run_updates cosf sinf inputs).player_x
          (run_updates cosf sinf inputs).player_y = false) :=
  ⟨update_keeps_free,
    fun cosf sinf inputs => foldl_updates_free cosf sinf inputs STATE (by decide)⟩

/-- C2 witness: the preservation half applied at the initial pose with
cosf = 1, sinf = 0 and the up flag. -/
theorem player_never_in_wall_witness :
    point_in_wall STATE.player_x STATE.player_y = false ∧
      point_in_wall (update cOne sZero STATE true false false false).player_x
        (update cOne sZero STATE true false false false).player_y = false :=
  ⟨by decide, player_never_in_wall.1 cOne sZero STATE true false false false (by decide)⟩

/-- C7: from a pose that is free and whose up-translated position is also
free, update(up) followed by update(down) with no rotation flags returns
the exact original state: the down branch subtracts exactly the deltas the
up branch added, at the unchanged angle.  In this exact-arithmetic
embedding the round trip is exact, hence in particular within any
floating-point tolerance. -/
theorem up_then_down_returns (cosf sinf : ℚ → ℚ) (s : State)
    (hfree : point_in_wall s.player_x s.player_y = false)
    (hstep : point_in_wall (s.player_x + cosf s.player_angle * STEP_SIZE)
      (s.player_y + -sinf s.player_angle * STEP_SIZE) = false) :
    update cosf sinf (update cosf sinf s true false false false) false true false false
      = s := by
  obtain ⟨x, y, a⟩ := s
  rw [neg_mul] at hstep
  have h1 : update cosf sinf ⟨x, y, a⟩ true false false false =
      ⟨x + cosf a * STEP_SIZE, y + -(sinf a * STEP_SIZE), a⟩ := by
    simp [update, translated_x, translated_y, rotated_angle, hstep]
  rw [h1]
  have tx : translated_x cosf
      ⟨x + cosf a * STEP_SIZE, y + -(sinf a * STEP_SIZE), a⟩ false true = x := by
    simp [translated_x]
  have ty : translated_y sinf
      ⟨x + cosf a * STEP_SIZE, y + -(sinf a * STEP_SIZE), a⟩ false true = y := by
    simp [translated_y]
  have ta : rotated_angle
      ⟨x + cosf a * STEP_SIZE, y + -(sinf a * STEP_SIZE), a⟩ false false = a := by
    simp [rotated_angle]
  simp [update, tx, ty, ta, hfree]

/-- C7 witness: the round trip at the initial pose with cosf = 1,
sinf = 0: one step right along the row stays in the free cell (1, 1). -/
theorem up_then_down_returns_witness :
    point_in_wall STATE.player_x STATE.player_y = false ∧
      point_in_wall (STATE.player_x + cOne STATE.player_angle * STEP_SIZE)
        (STATE.player_y + -sZero STATE.player_angle * STEP_SIZE) = false ∧
      update cOne sZero (update cOne sZero STATE true false false false)
        false true false false = STATE :=
  ⟨by decide, by decide, up_then_down_returns cOne sZero STATE (by decide) (by decide)⟩

/-- The horizontal sweep loop stops after some n ≤ fuel accumulation steps,
at offsets first + n * (dx, dy); it runs past n steps only by hitting the
fuel bound, otherwise its stopping point probes into a wall. -/
lemma hLoop_bounded (px py : ℚ) (up : Bool) (dx dy : ℚ) :
    ∀ (fuel : ℕ) (st : ℚ × ℚ), ∃ n : ℕ, n ≤ fuel ∧
      hLoop px py up dx dy fuel st = (st.1 + n * dx, st.2 + n * dy) ∧
      (n = fuel ∨
        point_in_wall (hProbe px py up (hLoop px py up dx dy fuel st)).1
          (hProbe px py up (hLoop px py up dx dy fuel st)).2 = true) := by
  intro fuel
  induction fuel with
  | zero =>
    intro st
    exact ⟨0, le_refl 0, by simp [hLoop], Or.inl rfl⟩
  | succ k ih =>
    intro st
    by_cases hw : point_in_wall (hProbe px py up st).1 (hProbe px py up st).2 = true
    · have hstop : hLoop px py up dx dy (k + 1) st = st := by
        simp [hLoop, hw]
      exact ⟨0, Nat.zero_le _, by simp [hstop], Or.inr (by rw [hstop]; exact hw)⟩
    · have hgo : hLoop px py up dx dy (k + 1) st =
          hLoop px py up dx dy k (st.1 + dx, st.2 + dy) := by
        simp [hLoop, hw]
      obtain ⟨n, hn, heq, hend⟩ := ih (st.1 + dx, st.2 + dy)
      refine ⟨n + 1, by omega, ?_, ?_⟩
      · rw [hgo, heq]
        simp only [Prod.mk.injEq]
        constructor <;> (push_cast; ring)
      · rcases hend with h | h
        · exact Or.inl (by omega)
        · exact Or.inr (by rw [hgo]; exact h)

/-- The vertical sweep loop: same characterization as the horizontal one. -/
lemma vLoop_bounded (px py : ℚ) (right : Bool) (dx dy : ℚ) :
    ∀ (fuel : ℕ) (st : ℚ × ℚ), ∃ n : ℕ, n ≤ fuel ∧
      vLoop px py right dx dy fuel st = (st.1 + n * dx, st.2 + n * dy) ∧
      (n = fuel ∨
        point_in_wall (vProbe px py right (vLoop px py right dx dy fuel st)).1
          (vProbe px py right (vLoop px py right dx dy fuel st)).2 = true) := by
  intro fuel
  induction fuel with
  | zero =>
    intro st
    exact ⟨0, le_refl 0, by simp [vLoop], Or.inl rfl⟩
  | succ k ih =>
    intro st
    by_cases hw : point_in_wall (vProbe px py right st).1 (vProbe px py right st).2 = true
    · have hstop : vLoop px py right dx dy (k + 1) st = st := by
        simp [vLoop, hw]
      exact ⟨0, Nat.zero_le _, by simp [hstop], Or.inr (by rw [hstop]; exact hw)⟩
    · have hgo : vLoop px py right dx dy (k + 1) st =
          vLoop px py right dx dy k (st.1 + dx, st.2 + dy) := by
        simp [vLoop, hw]
      obtain ⟨n, hn, heq, hend⟩ := ih (st.1 + dx, st.2 + dy)
      refine ⟨n + 1, by omega, ?_, ?_⟩
      · rw [hgo, heq]
        simp only [Prod.mk.injEq]
        constructor <;> (push_cast; ring)
      · rcases hend with h | h
        · exact Or.inl (by omega)
        · exact Or.inr (by rw [hgo]; exact h)

/-- C6: for every player state and every angle, each sweep stops after at
most 256 grid-stepping iterations — either because the probed point of the
stopping step is a wall, or because the 256-step budget is exhausted (then
n = 256) — and the value returned is the Euclidean distance (sqrtf of the
sum of squares) of the offsets accumulated up to the stopping step: on
exhaustion it is the distance of the last computed offset rather than a
failure or a longer loop. -/
theorem sweeps_bounded_termination (tanf sqrtf : ℚ → ℚ) (s : State) (angle : ℚ) :
    (∃ n : ℕ, n ≤ 256 ∧
      horizontal_intersection tanf sqrtf s angle =
        distance sqrtf (hFirstX tanf s angle + n * hDX tanf angle)
          (hFirstY s angle + n * hDY angle) ∧
      (n = 256 ∨
        point_in_wall
          (hProbe s.player_x s.player_y (hUp angle)
            (hFirstX tanf s angle + n * hDX tanf angle,
              hFirstY s angle + n * hDY angle)).1
          (hProbe s.player_x s.player_y (hUp angle)
            (hFirstX tanf s angle + n * hDX tanf angle,
              hFirstY s angle + n * hDY angle)).2 = true)) ∧
    (∃ n : ℕ, n ≤ 256 ∧
      vertical_intersection tanf sqrtf s angle =
        distance sqrtf (vFirstX s angle + n * vDX angle)
          (vFirstY tanf s angle + n * vDY tanf angle) ∧
      (n = 256 ∨
        point_in_wall
          (vProbe s.player_x s.player_y (vRight angle)
            (vFirstX s angle + n * vDX angle,
              vFirstY tanf s angle + n * vDY tanf angle)).1
          (vProbe s.player_x s.player_y (vRight angle)
            (vFirstX s angle + n * vDX angle,
              vFirstY tanf s angle + n * vDY tanf angle)).2 = true)) := by
  constructor
  · obtain ⟨n, hn, heq, hend⟩ := hLoop_bounded s.player_x s.player_y (hUp angle)
      (hDX tanf angle) (hDY angle) 256 (hFirstX tanf s angle, hFirstY s angle)
    refine ⟨n, hn, by simp [horizontal_intersection, heq], ?_⟩
    rw [heq] at hend
    exact hend
  · obtain ⟨n, hn, heq, hend⟩ := vLoop_bounded s.player_x s.player_y (vRight angle)
      (vDX angle) (vDY tanf angle) 256 (vFirstX s angle, vFirstY tanf s angle)
    refine ⟨n, hn, by simp [vertical_intersection, heq], ?_⟩
    rw [heq] at hend
    exact hend

/-- C1 fails as stated: at column 0, with the libm parameters interpreted
as cosf = 1/2, tanf = 1, sqrtf = id and the initial pose, both sweeps stop
at distance 1/2, the code computes
WALL_HEIGHT / (min_dist * cos(angle - player_angle)) = 100 / (1/4) = 400,
but the spec formula WALL_HEIGHT / (min_dist / cos(angle - player_angle))
gives 100 / 1 = 100: the code multiplies the minimum distance by the
cosine, it does not divide by it. -/
theorem height_formula_counterexample :
    (view_column cHalf tOne sqId STATE 0).1 ≠ spec_view_height cHalf tOne sqId STATE 0 := by
  decide

/-- C1 (amended): for every column, the height is WALL_HEIGHT divided by
(the minimum of the two sweep distances MULTIPLIED by
cos(angle - player_angle)), truncated to an integer with the saturating
i32 cast; i.e. the fish-eye-corrected distance is min_dist * cos, not
min_dist / cos. -/
theorem view_height_formula (cosf tanf sqrtf : ℚ → ℚ) (s : State) (idx : ℕ) :
    (view_column cosf tanf sqrtf s idx).1 =
      f32_div_as_i32 WALL_HEIGHT
        (min (horizontal_intersection tanf sqrtf s (colAngle s idx))
            (vertical_intersection tanf sqrtf s (colAngle s idx)) *
          cosf (colAngle s idx - s.player_angle)) := by
  by_cases h : horizontal_intersection tanf sqrtf s (colAngle s idx) <
      vertical_intersection tanf sqrtf s (colAngle s idx)
  · simp [view_column, h, min_eq_left h.le]
  · simp [view_column, h, min_eq_right (le_of_not_lt h)]

/-- C3 fails as stated: with cosf = 1/2, tanf = 1, sqrtf = id at the
initial pose, column 0 is an exact tie between the two sweeps, and the
shadow flag is true — the strict comparison h_dist < v_dist sends ties to
the vertical (shadow) branch, not the horizontal one. -/
theorem shadow_tie_counterexample :
    horizontal_intersection tOne sqId STATE (colAngle STATE 0) =
      vertical_intersection tOne sqId STATE (colAngle STATE 0) ∧
    (view_column cHalf tOne sqId STATE 0).2 = true := by
  constructor <;> decide

/-- C3 (amended): the shadow flag is true iff the vertical sweep distance
is less than or equal to the horizontal one: the comparison is the strict
h_dist < v_dist, so an exact tie takes the else branch and sets
shadow = true (ties are broken in favor of the vertical/shadow sweep). -/
theorem shadow_iff_vertical_min (cosf tanf sqrtf : ℚ → ℚ) (s : State) (idx : ℕ) :
    (view_column cosf tanf sqrtf s idx).2 = true ↔
      vertical_intersection tanf sqrtf s (colAngle s idx) ≤
        horizontal_intersection tanf sqrtf s (colAngle s idx) := by
  by_cases h : horizontal_intersection tanf sqrtf s (colAngle s idx) <
      vertical_intersection tanf sqrtf s (colAngle s idx)
  · simp [view_column, h, not_le.mpr h]
  · simp [view_column, h, le_of_not_lt h]

/-- The saturating division-cast always lands inside the i32 range. -/
lemma f32_div_as_i32_bounds (num den : ℚ) :
    -(2 ^ 31) ≤ f32_div_as_i32 num den ∧ f32_div_as_i32 num den ≤ 2 ^ 31 - 1 := by
  unfold f32_div_as_i32
  split_ifs with h1 h2 h3
  · constructor <;> norm_num
  · constructor <;> norm_num
  · constructor <;> norm_num
  · constructor
    · exact le_max_left _ _
    · exact max_le (by norm_num) (min_le_left _ _)

/-- C10: get_view is total: it always produces exactly 160 entries, and
every height is a well-defined integer inside the i32 range
[-2^31, 2^31 - 1], because the float-to-i32 conversion saturates (a zero
minimum distance makes the quotient infinite, which saturates to
2^31 - 1) instead of trapping. -/
theorem get_view_total_and_bounded (cosf tanf sqrtf : ℚ → ℚ) (s : State) :
    (get_view cosf tanf sqrtf s).length = 160 ∧
      (get_view cosf tanf sqrtf s).all
        (fun w => decide (-(2 ^ 31) ≤ w.1) && decide (w.1 ≤ 2 ^ 31 - 1)) = true := by
  constructor
  · simp [get_view]
  · rw [List.all_eq_true]
    intro w hw
    simp only [get_view, List.mem_map, List.mem_range] at hw
    obtain ⟨idx, -, rfl⟩ := hw
    simp only [view_column, Bool.and_eq_true, decide_eq_true_eq]
    exact ⟨(f32_div_as_i32_bounds _ _).1, (f32_div_as_i32_bounds _ _).2⟩
